import Mathlib

/-!
Shallow embedding of `collect_kpop_trade_v2.py` (kpop-trade-collector).

Python strings are modelled as Lean `String` (with `List Char` data),
`datetime` values as `Int` (seconds since the epoch, so that
`datetime.fromtimestamp` is the identity and `timedelta(days=d)` is
`d * 86400`), JSON dict lookups with a default as `Option.getD`, and
network effects as explicit parameters (a response value per request).
-/

namespace KpopTrade

/-- Python `str.lower()` (ASCII range, which covers every token the code
compares against), character by character. -/
def strLower (s : String) : String := String.mk (s.data.map Char.toLower)

/-- Python `str.upper()` (ASCII range), character by character. -/
def strUpper (s : String) : String := String.mk (s.data.map Char.toUpper)

/-- Python `needle in hay` on strings: contiguous substring test. -/
def subFound (needle hay : String) : Bool := decide (needle.data <:+: hay.data)

/-- The ordered transaction-type token list from `parse_title_tags`. -/
def transaction_types : List String := ["WTS", "WTB", "WTT", "WTT/WTS", "WTS/WTT", "ISO"]

/-- `tt.lower() in title.lower()` for one candidate token. -/
def ttMatch (title tt : String) : Bool := subFound (strLower tt) (strLower title)

/-- The first loop of `parse_title_tags`: scan `transaction_types` in order,
case-insensitive substring match, first hit wins, result upper-cased. -/
def findTransactionType (title : String) : Option String :=
  (transaction_types.find? (ttMatch title)).map strUpper

/-- Python whitespace for `str.strip()`. -/
def pySpace (c : Char) : Bool := c.isWhitespace

/-- Python `str.strip()` on a character list. -/
def pyStrip (l : List Char) : List Char :=
  ((l.dropWhile pySpace).reverse.dropWhile pySpace).reverse

/-- One step of `re.findall` for the pattern matching a literal left bracket,
one or more non-right-bracket characters (captured), then a right bracket.
`cur = some acc` means we are inside a candidate match whose captured
characters so far are `acc` (in reverse); `cur = none` means we are scanning
for the next opening bracket. Non-overlapping leftmost matching, exactly as
the Python regex engine behaves on this pattern. -/
def findBrackets : List Char → Option (List Char) → List (List Char)
  | [], _ => []
  | c :: rest, none =>
      if c = '[' then findBrackets rest (some []) else findBrackets rest none
  | c :: rest, some acc =>
      if c = ']' then
        match acc with
        | [] => findBrackets rest none
        | _ => acc.reverse :: findBrackets rest none
      else findBrackets rest (some (c :: acc))

/-- The country/region lookup table of `parse_title_tags` (dict with distinct
keys, modelled as an association list in source order). -/
def country_mapping : List (String × String) :=
  [("USA", "USA"), ("US", "USA"), ("UK", "UK"), ("EU", "EU"), ("WW", "WW"),
   ("CAN", "CAN"), ("CA", "CAN"), ("AUS", "AUS"), ("AU", "AUS"),
   ("KR", "KR"), ("JP", "JP"), ("SG", "SG"), ("PH", "PH"), ("MY", "MY"),
   ("TH", "TH"), ("ID", "ID"), ("VN", "VN"), ("TW", "TW"), ("HK", "HK"),
   ("NZ", "NZ"), ("DE", "DE"), ("FR", "FR"), ("NL", "NL"), ("IT", "IT"),
   ("ES", "ES"), ("BR", "BR"), ("MX", "MX"), ("IN", "IN"),
   ("CANADA", "CAN"), ("AUSTRALIA", "AUS"), ("KOREA", "KR"), ("JAPAN", "JP"),
   ("SINGAPORE", "SG"), ("PHILIPPINES", "PH"), ("MALAYSIA", "MY"),
   ("THAILAND", "TH"), ("INDONESIA", "ID"), ("VIETNAM", "VN"),
   ("TAIWAN", "TW"), ("GERMANY", "DE"), ("FRANCE", "FR"),
   ("NETHERLANDS", "NL"), ("ITALY", "IT"), ("SPAIN", "ES"),
   ("BRAZIL", "BR"), ("MEXICO", "MX"), ("INDIA", "IN")]

/-- `match_clean in country_mapping` then `country_mapping[match_clean]`. -/
def lookupCountry (key : List Char) : Option String :=
  (country_mapping.find? (fun e => e.1.data = pyStrip key)).map (fun e => e.2)

/-- The second loop of `parse_title_tags`: the first bracketed segment of the
upper-cased title whose stripped content is a key of `country_mapping`. -/
def findCountry (title : String) : Option String :=
  (findBrackets (strUpper title).data none).findSome? lookupCountry

/-- `parse_title_tags` from the source: transaction type and country code. -/
def parse_title_tags (title : String) : Option String × Option String :=
  (findTransactionType title, findCountry title)

/-- `TradePost` (pydantic model): `datetime` fields as `Int` seconds. -/
structure TradePost where
  title : String
  author : Option String
  author_flair : Option String
  transaction_type : Option String
  country : Option String
  flair : Option String
  score : Int
  comment_count : Int
  selftext : String
  created_timestamp : Option Int
  scraped_at : Int
  permalink : String
  first_image_url : Option String
  is_gallery : Bool
  subreddit : Option String
  source : String
deriving DecidableEq

/-- One raw Reddit post payload (`post["data"]`): each field the code reads,
`none` meaning the key is absent from the JSON dict. `media_metadata` holds
the resolved gallery image URLs in dict insertion order, `preview_images`
the preview block's image source URLs. -/
structure RawPost where
  title : Option String := none
  author : Option String := none
  author_flair_text : Option String := none
  link_flair_text : Option String := none
  score : Option Int := none
  num_comments : Option Int := none
  selftext : Option String := none
  created_utc : Option Int := none
  permalink : Option String := none
  url : Option String := none
  is_gallery : Option Bool := none
  has_gallery_data : Bool := false
  media_metadata : List String := []
  preview_images : Option (List String) := none
deriving DecidableEq

/-- `str.endswith` on one candidate extension. -/
def endsWith (s suffix : String) : Bool := decide (suffix.data <:+ s.data)

/-- `url.endswith((".jpg", ".png", ".gif", ".jpeg", ".webp"))`. -/
def hasImageExt (s : String) : Bool :=
  endsWith s ".jpg" || endsWith s ".png" || endsWith s ".gif" ||
    endsWith s ".jpeg" || endsWith s ".webp"

/-- The image-URL extraction chain shared by `search_subreddit` and
`get_posts_paginated`. -/
def firstImageUrl (p : RawPost) : Option String :=
  if p.is_gallery.getD false && p.has_gallery_data then
    match p.media_metadata with
    | [] => none
    | u :: _ => some u
  else if hasImageExt (p.url.getD "") then p.url
  else
    match p.preview_images with
    | some (i :: _) => some i
    | some [] => none
    | none => none

/-- Construction of a `TradePost` from one raw Reddit payload, exactly the
keyword arguments of the `TradePost(...)` calls in `search_subreddit` and
`get_posts_paginated` (`now` is the wall clock used for `scraped_at`). -/
def mkTradePost (sub : String) (now : Int) (p : RawPost) : TradePost :=
  { title := p.title.getD ""
    author := p.author
    author_flair := p.author_flair_text
    transaction_type := (parse_title_tags (p.title.getD "")).1
    country := (parse_title_tags (p.title.getD "")).2
    flair := p.link_flair_text
    score := p.score.getD 0
    comment_count := p.num_comments.getD 0
    selftext := p.selftext.getD ""
    created_timestamp := some (p.created_utc.getD 0)
    scraped_at := now
    permalink := "https://reddit.com" ++ p.permalink.getD ""
    first_image_url := firstImageUrl p
    is_gallery := p.is_gallery.getD false
    subreddit := some sub
    source := "reddit_api" }

/-- Outcome of executing the body of a decorated call once: a normal return
value, or an exception of the retried classes (`RequestException`,
`TimeoutError`). -/
inductive CallOutcome (α : Type) where
  | ok (a : α)
  | transientErr
deriving DecidableEq

/-- `tenacity.wait_exponential(multiplier, min, max)` evaluated after the
`n`-th attempt: `max(min, min(multiplier * 2^n, max))` (seconds). -/
def wait_exponential (multiplier mn mx n : Nat) : Nat :=
  Nat.max mn (Nat.min (multiplier * 2 ^ n) mx)

/-- The `tenacity.retry` driver with `stop_after_attempt` semantics: run the
wrapped body (attempt numbers are 1-based); a normal return ends the loop;
a retriable exception is retried while attempts remain, sleeping
`wait_exponential 1 2 10` between attempts; once the attempt budget is
exhausted the exception surfaces (`none`). Returns (number of attempts
performed, backoff waits slept, final result). -/
def tenacityRun {α : Type} (op : Nat → CallOutcome α) (n : Nat) :
    Nat → Nat × List Nat × Option α
  | 0 => (n, [], none)
  | fuel + 1 =>
    match op n with
    | .ok a => (n, [], some a)
    | .transientErr =>
      if fuel = 0 then (n, [], none)
      else
        let r := tenacityRun op (n + 1) fuel
        (r.1, wait_exponential 1 2 10 n :: r.2.1, r.2.2)

/-- The per-record filter-and-normalize loop of `search_subreddit`: posts
older than 180 days (`now - 15552000` seconds) are skipped, the rest are
normalized in order. -/
def searchCollect (now : Int) (sub : String) : List RawPost → List TradePost
  | [] => []
  | p :: rest =>
      if p.created_utc.getD 0 < now - 15552000 then searchCollect now sub rest
      else mkTradePost sub now p :: searchCollect now sub rest

/-- The body of `RedditAPIClient.search_subreddit` for one attempt. `authOk`
models "an access token is present, or `authenticate()` succeeded"; `net` is
the outcome of the HTTP GET + `raise_for_status` + `.json()` sequence,
producing the `data.children` payload list on success. The body catches
every exception of the network block and returns the empty list, so it never
lets a retriable exception escape. -/
def searchSubredditBody (authOk : Bool) (now : Int) (sub : String)
    (net : CallOutcome (List RawPost)) : CallOutcome (List TradePost) :=
  if !authOk then .ok []
  else
    match net with
    | .transientErr => .ok []
    | .ok children => .ok (searchCollect now sub children)

/-- `RedditAPIClient.search_subreddit` as decorated: the body run under
`retry(stop_after_attempt(3), wait_exponential(multiplier=1, min=2, max=10))`.
`net n` is what the network would do on the `n`-th attempt. -/
def search_subreddit (authOk : Bool) (now : Int) (sub : String)
    (net : Nat → CallOutcome (List RawPost)) : Nat × List Nat × Option (List TradePost) :=
  tenacityRun (fun n => searchSubredditBody authOk now sub (net n)) 1 3

/-- One organic result item of the search-engine response. -/
structure SerpItem where
  title : Option String := none
  snippet : Option String := none
  link : Option String := none
deriving DecidableEq

/-- The `TradePost(...)` construction in `SerpAPIClient.search`. -/
def mkSerpPost (now : Int) (item : SerpItem) : TradePost :=
  { title := item.title.getD ""
    author := none
    author_flair := none
    transaction_type := (parse_title_tags (item.title.getD "")).1
    country := (parse_title_tags (item.title.getD "")).2
    flair := none
    score := 0
    comment_count := 0
    selftext := item.snippet.getD ""
    created_timestamp := none
    scraped_at := now
    permalink := item.link.getD ""
    first_image_url := none
    is_gallery := false
    subreddit := none
    source := "serpapi" }

/-- The body of `SerpAPIClient.search` for one attempt: unavailable key or
any exception or an `error` key in the response body yields the empty list;
otherwise the organic results are normalized. The exception handler is
inside the body, so no retriable exception escapes. -/
def serpSearchBody (available : Bool) (now : Int)
    (net : CallOutcome (Bool × List SerpItem)) : CallOutcome (List TradePost) :=
  if !available then .ok []
  else
    match net with
    | .transientErr => .ok []
    | .ok (hasError, items) =>
        if hasError then .ok [] else .ok (items.map (mkSerpPost now))

/-- `SerpAPIClient.search` as decorated with the same retry policy. -/
def serpSearch (available : Bool) (now : Int)
    (net : Nat → CallOutcome (Bool × List SerpItem)) :
    Nat × List Nat × Option (List TradePost) :=
  tenacityRun (fun n => serpSearchBody available now (net n)) 1 3

/-- The credential cache of `RedditAPIClient`: `access_token` and
`token_expires_at` instance fields. -/
structure SessionState where
  access_token : Option String
  token_expires_at : Option Int
deriving DecidableEq

/-- Outcome of the token exchange block: `failure` covers a network error,
a non-2xx status (`raise_for_status`), or a body without an `access_token`
key (`KeyError`); `success tok ein` is a 2xx JSON body with `access_token`
and an optional `expires_in`. -/
inductive ExchangeResult where
  | failure
  | success (token : String) (expires_in : Option Int)
deriving DecidableEq

/-- Python truthiness of the cached token (`if self.access_token`). -/
def tokenTruthy : Option String → Bool
  | none => false
  | some s => !(s = "")

/-- The cached-token fast path of `authenticate`: both fields truthy and
`now < token_expires_at`. -/
def cachedValid (st : SessionState) (now : Int) : Bool :=
  match st.token_expires_at with
  | none => false
  | some e => tokenTruthy st.access_token && decide (now < e)

/-- `RedditAPIClient.authenticate`: returns (result, new session state,
whether a token exchange was performed). `available` is
`is_available()` (both env credentials set), `now` the wall clock, `ex`
what the auth endpoint would answer. -/
def authenticate (available : Bool) (st : SessionState) (now : Int)
    (ex : ExchangeResult) : Bool × SessionState × Bool :=
  if !available then (false, st, false)
  else if cachedValid st now then (true, st, false)
  else
    match ex with
    | .failure => (false, st, true)
    | .success tok ein =>
        (true, ⟨some tok, some (now + (ein.getD 3600 - 60))⟩, true)

/-- One page answer of the listing endpoint: the `data.children` raw posts
and the `data.after` cursor (`none` also covers a falsy empty-string
cursor, which the code treats as absent). -/
structure PageResponse where
  children : List RawPost
  after : Option String
deriving DecidableEq

/-- Outcome of one page request (`requests.get` + `raise_for_status` +
`.json()`), caught by the per-page `try`. -/
inductive PageResult where
  | err
  | ok (r : PageResponse)
deriving DecidableEq

/-- The inner `for post in children` loop of `get_posts_paginated`: returns
the grown accumulator and the `stop_pagination` flag. A record older than
`min_date` (when one is configured) sets the flag and abandons the page;
otherwise the record is normalized and appended, and reaching `limit`
breaks out of the page without setting the flag. -/
def consumeChildren (sub : String) (now : Int) (limit : Nat)
    (minDate : Option Int) : List RawPost → List TradePost → List TradePost × Bool
  | [], acc => (acc, false)
  | p :: rest, acc =>
      if (match minDate with
          | some d => decide (p.created_utc.getD 0 < d)
          | none => false) then
        (acc, true)
      else if limit ≤ (acc ++ [mkTradePost sub now p]).length then
        (acc ++ [mkTradePost sub now p], false)
      else consumeChildren sub now limit minDate rest (acc ++ [mkTradePost sub now p])

/-- The `while len(all_posts) < limit and page < max_pages` loop of
`get_posts_paginated`, with `fuel = max_pages - page` and `reqs` counting
page requests issued so far (`fetch r` is the answer to the `r`-th
request). Returns (accumulated posts, final `after` cursor, total page
requests issued). -/
def paginateLoop (fetch : Nat → PageResult) (sub : String) (now : Int)
    (limit : Nat) (minDate : Option Int) :
    Nat → List TradePost → Option String → Nat →
    List TradePost × Option String × Nat
  | 0, acc, after, reqs => (acc, after, reqs)
  | fuel + 1, acc, after, reqs =>
    if acc.length < limit then
      match fetch reqs with
      | .err => (acc, after, reqs + 1)
      | .ok resp =>
        if resp.children.isEmpty then (acc, after, reqs + 1)
        else
          match consumeChildren sub now limit minDate resp.children acc with
          | (acc2, true) => (acc2, after, reqs + 1)
          | (acc2, false) =>
            match resp.after with
            | none => (acc2, none, reqs + 1)
            | some a =>
                paginateLoop fetch sub now limit minDate fuel acc2 (some a) (reqs + 1)
    else (acc, after, reqs)

/-- `RedditAPIClient.get_posts_paginated`: on a missing token with a failed
`authenticate()` it returns `([], None)` having issued no request;
otherwise it runs the pagination loop from an empty accumulator and absent
cursor. -/
def get_posts_paginated (authOk : Bool) (fetch : Nat → PageResult)
    (sub : String) (now : Int) (limit maxPages : Nat) (minDate : Option Int) :
    List TradePost × Option String × Nat :=
  if authOk then paginateLoop fetch sub now limit minDate maxPages [] none 0
  else ([], none, 0)

/-- `post.permalink.rstrip("/")`: drop every trailing slash. -/
def canonicalUrl (s : String) : String :=
  String.mk ((s.data.reverse.dropWhile (fun c => c = '/')).reverse)

/-- The deduplication loop of `KpopTradeCollector.collect`: first-seen
record per canonical URL wins, later duplicates are dropped; `seen` models
the `seen_urls` set. -/
def dedupPosts : List TradePost → List String → List TradePost
  | [], _ => []
  | p :: rest, seen =>
      if canonicalUrl p.permalink ∈ seen then dedupPosts rest seen
      else p :: dedupPosts rest (canonicalUrl p.permalink :: seen)

/-- `datetime.min` rendered in seconds relative to the epoch: the fallback
sort key for records without a timestamp. -/
def datetimeMin : Int := -62135596800

/-- The sort key `p.created_timestamp or datetime.min`. -/
def rankKey (p : TradePost) : Int := p.created_timestamp.getD datetimeMin

/-- `trade_posts.sort(key=..., reverse=True)`: a stable sort, descending by
`rankKey`. -/
def rankPosts (l : List TradePost) : List TradePost :=
  l.mergeSort (fun a b => decide (rankKey b ≤ rankKey a))

/-- The final truncation `trade_posts[:limit]` guarded by
`len(trade_posts) > limit`. -/
def truncateLimit (limit : Nat) (l : List TradePost) : List TradePost :=
  if limit < l.length then l.take limit else l

/-- The raw payload used to refute C2: a body of 501 characters. -/
def rawLong : RawPost :=
  { selftext := some (String.mk (List.replicate 501 'a'))
    created_utc := some 15552000
    title := some "[WTS] cards"
    permalink := some "/r/kpopforsale/1" }

/-- The canonical-URL comparison used to characterize deduplication. -/
def urlIs (u : String) (p : TradePost) : Bool := decide (canonicalUrl p.permalink = u)

/-- Concrete two-record list for the ranking witness: one record without a
timestamp, one with timestamp 5. -/
def c7SampleList : List TradePost :=
  [mkSerpPost 0 { title := some "WTS card" },
   mkTradePost "kpopforsale" 0 { created_utc := some 5 }]

/-- Substring matching is transitive along the token: if the lowered token
`t1` occurs inside the lowered token `t2`, any title matching `t2` also
matches `t1`. -/
theorem ttMatch_mono (title t1 t2 : String)
    (h : (strLower t1).data <:+: (strLower t2).data)
    (h2 : ttMatch title t2 = true) : ttMatch title t1 = true := by
  unfold ttMatch subFound at h2 ⊢
  rw [decide_eq_true_iff] at h2 ⊢
  exact h.trans h2

/-- C3: the title-tag parser picks the transaction type by scanning
WTS, WTB, WTT, WTT/WTS, WTS/WTT, ISO in order with case-insensitive
substring match (first hit wins, so any title containing WTS yields WTS),
and the region from the first bracketed segment found in the country
table; `"[WTS][USA] Seventeen photocard"` gives `WTS`/`USA`, and
`"[Canada] selling NCT set"` gives no transaction type and region `CAN`. -/
theorem c3_title_tags :
    parse_title_tags "[WTS][USA] Seventeen photocard" = (some "WTS", some "USA")
    ∧ parse_title_tags "[Canada] selling NCT set" = (none, some "CAN")
    ∧ ∀ title : String, ttMatch title "WTS" = true →
        (parse_title_tags title).1 = some "WTS" := by
  refine ⟨by decide, by decide, ?_⟩
  intro title h
  show (findTransactionType title) = some "WTS"
  rw [findTransactionType, transaction_types, List.find?_cons_of_pos _ h]
  decide

/-- Witness for C3 at the concrete title `"wts bundle"`. -/
theorem c3_title_tags_witness :
    ttMatch "wts bundle" "WTS" = true ∧ (parse_title_tags "wts bundle").1 = some "WTS" :=
  ⟨by decide, c3_title_tags.2.2 "wts bundle" (by decide)⟩

/-- C10: the parsed transaction type is always `none` or one of the four
simple tokens; the compound tokens are never returned because a title
containing a compound token also contains `WTS`, which is checked first. -/
theorem c10_transaction_type_range (title : String) :
    (parse_title_tags title).1 ∈
      ([none, some "WTS", some "WTB", some "WTT", some "ISO"] : List (Option String)) := by
  show (findTransactionType title) ∈ _
  rw [findTransactionType, transaction_types]
  cases h1 : ttMatch title "WTS" with
  | true => rw [List.find?_cons_of_pos _ h1]; decide
  | false =>
    rw [List.find?_cons_of_neg _ (by simp [h1])]
    cases h2 : ttMatch title "WTB" with
    | true => rw [List.find?_cons_of_pos _ h2]; decide
    | false =>
      rw [List.find?_cons_of_neg _ (by simp [h2])]
      cases h3 : ttMatch title "WTT" with
      | true => rw [List.find?_cons_of_pos _ h3]; decide
      | false =>
        rw [List.find?_cons_of_neg _ (by simp [h3])]
        have h4 : ttMatch title "WTT/WTS" = false := by
          cases h4 : ttMatch title "WTT/WTS" with
          | false => rfl
          | true =>
            rw [ttMatch_mono title "WTS" "WTT/WTS" (by decide) h4] at h1
            cases h1
        have h5 : ttMatch title "WTS/WTT" = false := by
          cases h5 : ttMatch title "WTS/WTT" with
          | false => rfl
          | true =>
            rw [ttMatch_mono title "WTS" "WTS/WTT" (by decide) h5] at h1
            cases h1
        rw [List.find?_cons_of_neg _ (by simp [h4])]
        rw [List.find?_cons_of_neg _ (by simp [h5])]
        cases h6 : ttMatch title "ISO" with
        | true => rw [List.find?_cons_of_pos _ h6]; decide
        | false =>
          rw [List.find?_cons_of_neg _ (by simp [h6]), List.find?_nil]
          decide

/-- C1: the retry wrappers are configured for 3 attempts with waits 2s and
4s, but the decorated bodies catch every network exception internally and
return the empty list, so an always-transiently-failing underlying call is
attempted exactly once with no backoff wait; the retry schedule would only
engage if the body itself raised, as the last conjunct shows. -/
theorem c1_retry_never_engages :
    search_subreddit true 0 "kpopforsale" (fun _ => CallOutcome.transientErr)
      = (1, [], some [])
    ∧ serpSearch true 0 (fun _ => CallOutcome.transientErr) = (1, [], some [])
    ∧ wait_exponential 1 2 10 1 = 2 ∧ wait_exponential 1 2 10 2 = 4
    ∧ (1 : Nat) ≠ 3
    ∧ tenacityRun (fun _ => (CallOutcome.transientErr : CallOutcome (List TradePost))) 1 3
        = (3, [2, 4], none) :=
  ⟨rfl, rfl, by decide, by decide, by decide, by decide⟩

set_option maxRecDepth 4000 in
/-- C2 counterexample: normalization performs no truncation, so a raw post
whose body has 501 characters yields a `TradePost` whose `selftext` keeps
all 501 characters, violating the 500-character cap the claim states. -/
theorem c2_counterexample :
    (search_subreddit true 15552000 "kpopforsale"
        (fun _ => CallOutcome.ok [rawLong])).2.2
      = some [mkTradePost "kpopforsale" 15552000 rawLong]
    ∧ (mkTradePost "kpopforsale" 15552000 rawLong).selftext.length = 501
    ∧ ¬ (mkTradePost "kpopforsale" 15552000 rawLong).selftext.length ≤ 500 := by
  refine ⟨rfl, ?_, ?_⟩ <;> decide

/-- C2 amended: the normalizers store body content verbatim with no length
cap (there is no 500- or 200-character truncation in the code and no
separate preview field), and the body defaults to the empty string when
the raw payload lacks it. -/
theorem c2_amended_no_truncation (sub : String) (now : Int) (p : RawPost)
    (item : SerpItem) :
    (mkTradePost sub now p).selftext = p.selftext.getD ""
    ∧ (p.selftext = none → (mkTradePost sub now p).selftext = "")
    ∧ (mkSerpPost now item).selftext = item.snippet.getD ""
    ∧ (item.snippet = none → (mkSerpPost now item).selftext = "") := by
  refine ⟨rfl, fun h => ?_, rfl, fun h => ?_⟩
  · show p.selftext.getD "" = ""
    rw [h]
    rfl
  · show item.snippet.getD "" = ""
    rw [h]
    rfl

/-- Witness for the amended C2 at a concrete payload with an absent body. -/
theorem c2_amended_no_truncation_witness :
    (mkTradePost "kpopforsale" 0 { created_utc := some 1 }).selftext = ""
    ∧ (mkSerpPost 0 { title := some "t" }).selftext = "" :=
  ⟨(c2_amended_no_truncation "kpopforsale" 0 { created_utc := some 1 }
      { title := some "t" }).2.1 rfl,
   (c2_amended_no_truncation "kpopforsale" 0 { created_utc := some 1 }
      { title := some "t" }).2.2.2 rfl⟩

/-- C8: with credentials configured, `authenticate` returns true at once and
performs no exchange when a non-empty token is cached and the clock is
before `token_expires_at`; otherwise it exchanges, storing the token and
`now + ttl - 60` on success (ttl defaulting to 3600 when the body lacks
`expires_in`), and returns false without raising on any failure. -/
theorem c8_authenticate (st : SessionState) (now : Int) (ex : ExchangeResult) :
    (∀ tok e, st.access_token = some tok → tok ≠ "" → st.token_expires_at = some e →
        now < e → authenticate true st now ex = (true, st, false))
    ∧ (cachedValid st now = false → ex = ExchangeResult.failure →
        authenticate true st now ex = (false, st, true))
    ∧ (cachedValid st now = false → ∀ tok ein, ex = ExchangeResult.success tok ein →
        authenticate true st now ex =
          (true, ⟨some tok, some (now + (ein.getD 3600 - 60))⟩, true)) := by
  refine ⟨?_, ?_, ?_⟩
  · intro tok e htok hne he hlt
    have hv : cachedValid st now = true := by
      rw [cachedValid, he, htok]
      simp [tokenTruthy, hne, hlt]
    simp [authenticate, hv]
  · intro hc hex
    subst hex
    simp [authenticate, hc]
  · intro hc tok ein hex
    subst hex
    simp [authenticate, hc]

/-- Witness for C8: a fresh-token fast path, a failed exchange, and a
successful exchange, each at concrete values. -/
theorem c8_authenticate_witness :
    authenticate true ⟨some "tok", some 100⟩ 50 ExchangeResult.failure
      = (true, ⟨some "tok", some 100⟩, false)
    ∧ authenticate true ⟨none, none⟩ 0 ExchangeResult.failure
      = (false, ⟨none, none⟩, true)
    ∧ authenticate true ⟨none, none⟩ 0 (ExchangeResult.success "new" (some 3600))
      = (true, ⟨some "new", some (0 + (3600 - 60))⟩, true) :=
  ⟨(c8_authenticate ⟨some "tok", some 100⟩ 50 ExchangeResult.failure).1
      "tok" 100 rfl (by decide) rfl (by decide),
   (c8_authenticate ⟨none, none⟩ 0 ExchangeResult.failure).2.1 (by decide) rfl,
   (c8_authenticate ⟨none, none⟩ 0 (ExchangeResult.success "new" (some 3600))).2.2
      (by decide) "new" (some 3600) rfl⟩

/-- Every record kept by the 180-day filter loop of `search_subreddit`
carries a timestamp no older than `now - 15552000` seconds. -/
theorem searchCollect_created_ge (now : Int) (sub : String) :
    ∀ children, ∀ p ∈ searchCollect now sub children,
      ∃ t, p.created_timestamp = some t ∧ now - 15552000 ≤ t := by
  intro children
  induction children with
  | nil => intro p hp; cases hp
  | cons q rest ih =>
    intro p hp
    rw [searchCollect] at hp
    by_cases hq : q.created_utc.getD 0 < now - 15552000
    · rw [if_pos hq] at hp
      exact ih p hp
    · rw [if_neg hq] at hp
      rcases List.mem_cons.mp hp with rfl | h2
      · exact ⟨q.created_utc.getD 0, rfl, le_of_not_lt hq⟩
      · exact ih p h2

/-- If every normal return of the wrapped body satisfies `Q`, so does any
value the retry driver delivers. -/
theorem tenacityRun_ok_prop {α : Type} (op : Nat → CallOutcome α) (Q : α → Prop)
    (hop : ∀ n a, op n = CallOutcome.ok a → Q a) :
    ∀ fuel n a, (tenacityRun op n fuel).2.2 = some a → Q a := by
  intro fuel
  induction fuel with
  | zero => intro n a h; cases h
  | succ f ih =>
    intro n a h
    rw [tenacityRun] at h
    cases hop' : op n with
    | ok b =>
      rw [hop'] at h
      have hb : b = a := by
        simpa using h
      exact hb ▸ hop n b hop'
    | transientErr =>
      rw [hop'] at h
      by_cases hf : f = 0
      · rw [if_pos hf] at h
        cases h
      · rw [if_neg hf] at h
        exact ih (n + 1) a (by simpa using h)

/-- Any list the `search_subreddit` body returns satisfies the 180-day
window. -/
theorem searchSubredditBody_window (authOk : Bool) (now : Int) (sub : String)
    (net : CallOutcome (List RawPost)) (l : List TradePost)
    (h : searchSubredditBody authOk now sub net = CallOutcome.ok l) :
    ∀ p ∈ l, ∃ t, p.created_timestamp = some t ∧ now - 15552000 ≤ t := by
  cases authOk with
  | false =>
    have hl : [] = l := by simpa [searchSubredditBody] using h
    intro p hp
    rw [← hl] at hp
    cases hp
  | true =>
    cases net with
    | transientErr =>
      have hl : [] = l := by simpa [searchSubredditBody] using h
      intro p hp
      rw [← hl] at hp
      cases hp
    | ok children =>
      have hl : searchCollect now sub children = l := by
        simpa [searchSubredditBody] using h
      intro p hp
      rw [← hl] at hp
      exact searchCollect_created_ge now sub children p hp

/-- C9: every record the feed-search operation returns has a `created_at`
within the last 180 days of the call time; the filter is applied
client-side on the response records, whatever the server returned. -/
theorem c9_feed_search_window (authOk : Bool) (now : Int) (sub : String)
    (net : Nat → CallOutcome (List RawPost)) (lst : List TradePost)
    (h : (search_subreddit authOk now sub net).2.2 = some lst) :
    ∀ p ∈ lst, ∃ t, p.created_timestamp = some t ∧ now - 15552000 ≤ t :=
  tenacityRun_ok_prop (fun n => searchSubredditBody authOk now sub (net n))
    (fun l => ∀ p ∈ l, ∃ t, p.created_timestamp = some t ∧ now - 15552000 ≤ t)
    (fun n a ha => searchSubredditBody_window authOk now sub (net n) a ha)
    3 1 lst h

/-- Witness for C9: a server answering one in-window record (and the claim's
window bound evaluated there). -/
theorem c9_feed_search_window_witness :
    (search_subreddit true 20000000 "kpopforsale"
        (fun _ => CallOutcome.ok [{ created_utc := some 19000000 }])).2.2
      = some [mkTradePost "kpopforsale" 20000000 { created_utc := some 19000000 }]
    ∧ ∃ t, (mkTradePost "kpopforsale" 20000000
        { created_utc := some 19000000 }).created_timestamp = some t
        ∧ 20000000 - 15552000 ≤ t :=
  ⟨rfl,
   c9_feed_search_window true 20000000 "kpopforsale"
     (fun _ => CallOutcome.ok [{ created_utc := some 19000000 }])
     [mkTradePost "kpopforsale" 20000000 { created_utc := some 19000000 }] rfl
     (mkTradePost "kpopforsale" 20000000 { created_utc := some 19000000 })
     (List.mem_singleton.mpr rfl)⟩


theorem consumeChildren_length_le (sub : String) (now : Int) (limit : Nat)
    (minDate : Option Int) :
    ∀ cs acc, acc.length < limit →
      ((consumeChildren sub now limit minDate cs acc).1).length ≤ limit := by
  intro cs
  induction cs with
  | nil => intro acc h; exact le_of_lt h
  | cons p rest ih =>
    intro acc h
    simp only [consumeChildren]
    split
    · exact le_of_lt h
    · split
      · next hl =>
        simp only [List.length_append, List.length_cons, List.length_nil]
        omega
      · next hl =>
        refine ih _ ?_
        simp only [List.length_append, List.length_cons, List.length_nil] at hl ⊢
        omega

theorem paginateLoop_length_le (fetch : Nat → PageResult) (sub : String)
    (now : Int) (limit : Nat) (minDate : Option Int) :
    ∀ fuel acc after reqs, acc.length ≤ limit →
      ((paginateLoop fetch sub now limit minDate fuel acc after reqs).1).length ≤ limit := by
  intro fuel
  induction fuel with
  | zero => intro acc after reqs h; exact h
  | succ f ih =>
    intro acc after reqs h
    rw [paginateLoop]
    by_cases hlt : acc.length < limit
    · rw [if_pos hlt]
      split
      · exact h
      · rename_i resp hfet
        split
        · exact h
        · split
          · rename_i acc2 heq
            have h2 := consumeChildren_length_le sub now limit minDate resp.children acc hlt
            rw [heq] at h2
            exact h2
          · rename_i acc2 heq
            have h2 := consumeChildren_length_le sub now limit minDate resp.children acc hlt
            rw [heq] at h2
            split
            · exact h2
            · exact ih acc2 _ (reqs + 1) h2
    · rw [if_neg hlt]
      exact h


theorem paginateLoop_reqs_le (fetch : Nat → PageResult) (sub : String)
    (now : Int) (limit : Nat) (minDate : Option Int) :
    ∀ fuel acc after reqs,
      (paginateLoop fetch sub now limit minDate fuel acc after reqs).2.2 ≤ reqs + fuel := by
  intro fuel
  induction fuel with
  | zero =>
    intro acc after reqs
    rw [paginateLoop]
    show reqs ≤ reqs + 0
    omega
  | succ f ih =>
    intro acc after reqs
    rw [paginateLoop]
    by_cases hlt : acc.length < limit
    · rw [if_pos hlt]
      split
      · show reqs + 1 ≤ reqs + (f + 1)
        omega
      · rename_i resp hfet
        split
        · show reqs + 1 ≤ reqs + (f + 1)
          omega
        · split
          · show reqs + 1 ≤ reqs + (f + 1)
            omega
          · rename_i acc2 heq
            split
            · show reqs + 1 ≤ reqs + (f + 1)
              omega
            · rename_i a hafter
              have h2 := ih acc2 (some a) (reqs + 1)
              omega
    · rw [if_neg hlt]
      show reqs ≤ reqs + (f + 1)
      omega

/-- C4: the paginated fetcher returns at most `limit` records and issues at
most `max_pages` page requests, for every server behavior, auth state,
limit, page cap and date bound. -/
theorem c4_pagination_bounds (authOk : Bool) (fetch : Nat → PageResult)
    (sub : String) (now : Int) (limit maxPages : Nat) (minDate : Option Int) :
    ((get_posts_paginated authOk fetch sub now limit maxPages minDate).1).length ≤ limit
    ∧ (get_posts_paginated authOk fetch sub now limit maxPages minDate).2.2 ≤ maxPages := by
  cases authOk with
  | false =>
    constructor
    · show (0 : Nat) ≤ limit
      omega
    · show (0 : Nat) ≤ maxPages
      omega
  | true =>
    constructor
    · exact paginateLoop_length_le fetch sub now limit minDate maxPages [] none 0
        (Nat.zero_le _)
    · have h := paginateLoop_reqs_le fetch sub now limit minDate maxPages [] none 0
      show (paginateLoop fetch sub now limit minDate maxPages [] none 0).2.2 ≤ maxPages
      omega


theorem consumeChildren_window (sub : String) (now : Int) (limit : Nat) (d : Int) :
    ∀ cs acc, (∀ p ∈ acc, ∃ t, p.created_timestamp = some t ∧ d ≤ t) →
      ∀ q ∈ (consumeChildren sub now limit (some d) cs acc).1,
        ∃ t, q.created_timestamp = some t ∧ d ≤ t := by
  intro cs
  induction cs with
  | nil => intro acc hacc; exact hacc
  | cons p rest ih =>
    intro acc hacc
    simp only [consumeChildren]
    split
    · exact hacc
    · next hd =>
      have hge : d ≤ p.created_utc.getD 0 := by
        simp only [decide_eq_true_eq] at hd
        omega
      have hacc2 : ∀ q ∈ acc ++ [mkTradePost sub now p],
          ∃ t, q.created_timestamp = some t ∧ d ≤ t := by
        intro q hq
        rcases List.mem_append.mp hq with h1 | h1
        · exact hacc q h1
        · rcases List.mem_singleton.mp h1 with rfl
          exact ⟨p.created_utc.getD 0, rfl, hge⟩
      split
      · exact hacc2
      · exact ih _ hacc2

theorem paginateLoop_window (fetch : Nat → PageResult) (sub : String)
    (now : Int) (limit : Nat) (d : Int) :
    ∀ fuel acc after reqs, (∀ p ∈ acc, ∃ t, p.created_timestamp = some t ∧ d ≤ t) →
      ∀ q ∈ (paginateLoop fetch sub now limit (some d) fuel acc after reqs).1,
        ∃ t, q.created_timestamp = some t ∧ d ≤ t := by
  intro fuel
  induction fuel with
  | zero => intro acc after reqs hacc; exact hacc
  | succ f ih =>
    intro acc after reqs hacc
    rw [paginateLoop]
    by_cases hlt : acc.length < limit
    · rw [if_pos hlt]
      split
      · exact hacc
      · rename_i resp hfet
        split
        · exact hacc
        · split
          · rename_i acc2 heq
            have h2 := consumeChildren_window sub now limit d resp.children acc hacc
            rw [heq] at h2
            exact h2
          · rename_i acc2 heq
            have h2 := consumeChildren_window sub now limit d resp.children acc hacc
            rw [heq] at h2
            split
            · exact h2
            · exact ih acc2 _ (reqs + 1) h2
    · rw [if_neg hlt]
      exact hacc

theorem consumeChildren_cutoff (sub : String) (now : Int) (limit : Nat) (d : Int) :
    ∀ good (bad : RawPost) rest acc,
      (∀ x ∈ good, ¬(x.created_utc.getD 0 < d)) →
      bad.created_utc.getD 0 < d → acc.length + good.length < limit →
      consumeChildren sub now limit (some d) (good ++ bad :: rest) acc
        = (acc ++ good.map (mkTradePost sub now), true) := by
  intro good
  induction good with
  | nil =>
    intro bad rest acc hg hb hl
    simp only [List.nil_append, consumeChildren]
    rw [if_pos (by simpa using hb)]
    simp
  | cons g gs ih =>
    intro bad rest acc hg hb hl
    have hgg := hg g (List.mem_cons_self g gs)
    simp only [List.cons_append, consumeChildren]
    rw [if_neg (by simpa using hgg)]
    rw [if_neg (by
      simp only [List.length_append, List.length_cons, List.length_nil]
      simp only [List.length_cons] at hl
      omega)]
    simp only [List.append_eq]
    rw [ih bad rest (acc ++ [mkTradePost sub now g])
      (fun x hx => hg x (List.mem_cons_of_mem g hx)) hb
      (by
        simp only [List.length_append, List.length_cons, List.length_nil]
        simp only [List.length_cons] at hl
        omega)]
    simp [List.append_assoc]


/-- C5: with a `min_date` bound configured, every record the paginated
fetcher returns is dated on or after the bound; and when the first page
consists of in-range records followed by an out-of-range one, the fetcher
returns exactly the in-range head of that page, with no further page
request (one request in total) and no cursor. -/
theorem c5_date_cutoff (fetch : Nat → PageResult) (sub : String) (now : Int)
    (d : Int) (limit maxPages : Nat) (good : List RawPost) (bad : RawPost)
    (rest : List RawPost) (aft : Option String) :
    (∀ authOk, ∀ p ∈ (get_posts_paginated authOk fetch sub now limit maxPages (some d)).1,
        ∃ t, p.created_timestamp = some t ∧ d ≤ t)
    ∧ (fetch 0 = PageResult.ok ⟨good ++ bad :: rest, aft⟩ →
        (∀ x ∈ good, d ≤ x.created_utc.getD 0) →
        bad.created_utc.getD 0 < d → good.length < limit → 0 < maxPages →
        get_posts_paginated true fetch sub now limit maxPages (some d)
          = (good.map (mkTradePost sub now), none, 1)) := by
  constructor
  · intro authOk
    cases authOk with
    | false =>
      intro p hp
      simp [get_posts_paginated] at hp
    | true =>
      exact paginateLoop_window fetch sub now limit d maxPages [] none 0
        (by intro p hp; cases hp)
  · intro hf hgood hbad hlim hmp
    obtain ⟨m, rfl⟩ : ∃ m, maxPages = m + 1 := ⟨maxPages - 1, by omega⟩
    have h0 : ([] : List TradePost).length < limit := by
      simp only [List.length_nil]
      omega
    have hne : (good ++ bad :: rest).isEmpty = false := by
      cases good <;> rfl
    have hcut := consumeChildren_cutoff sub now limit d good bad rest []
      (fun x hx => not_lt.mpr (hgood x hx)) hbad (by simpa using hlim)
    show paginateLoop fetch sub now limit (some d) (m + 1) [] none 0 = _
    rw [paginateLoop, if_pos h0]
    simp only [hf]
    simp only [hne, Bool.false_eq_true, if_false]
    simp only [List.nil_append] at hcut
    simp only [hcut]


theorem dedupPosts_sublist : ∀ (l : List TradePost) seen, (dedupPosts l seen).Sublist l := by
  intro l
  induction l with
  | nil => intro seen; exact List.Sublist.refl _
  | cons p rest ih =>
    intro seen
    rw [dedupPosts]
    split
    · exact (ih seen).cons p
    · exact (ih _).cons₂ p

theorem dedupPosts_not_mem_seen :
    ∀ (l : List TradePost) seen u, u ∈ seen →
      u ∉ (dedupPosts l seen).map (fun p => canonicalUrl p.permalink) := by
  intro l
  induction l with
  | nil => intro seen u hu; simp [dedupPosts]
  | cons p rest ih =>
    intro seen u hu
    rw [dedupPosts]
    split
    · exact ih seen u hu
    · next hc =>
      intro hmem
      rcases List.mem_cons.mp hmem with h1 | h1
      · have h2 : u = canonicalUrl p.permalink := h1
        exact hc (h2 ▸ hu)
      · exact ih _ u (List.mem_cons_of_mem _ hu) h1

theorem dedupPosts_canon_nodup :
    ∀ (l : List TradePost) seen,
      ((dedupPosts l seen).map (fun p => canonicalUrl p.permalink)).Nodup := by
  intro l
  induction l with
  | nil => intro seen; simp [dedupPosts]
  | cons p rest ih =>
    intro seen
    rw [dedupPosts]
    split
    · exact ih seen
    · simp only [List.map_cons, List.nodup_cons]
      exact ⟨dedupPosts_not_mem_seen rest _ _ (List.mem_cons_self _ _), ih _⟩

theorem dedupPosts_idem :
    ∀ (l : List TradePost) seen, dedupPosts (dedupPosts l seen) seen = dedupPosts l seen := by
  intro l
  induction l with
  | nil => intro seen; rfl
  | cons p rest ih =>
    intro seen
    rw [dedupPosts]
    split
    · exact ih seen
    · next hc =>
      rw [dedupPosts, if_neg hc, ih (canonicalUrl p.permalink :: seen)]

theorem dedupPosts_filter :
    ∀ (l : List TradePost) seen u,
      (dedupPosts l seen).filter (urlIs u)
        = if u ∈ seen then [] else (l.filter (urlIs u)).take 1 := by
  intro l
  induction l with
  | nil =>
    intro seen u
    by_cases h : u ∈ seen <;> simp [dedupPosts, h]
  | cons p rest ih =>
    intro seen u
    rw [dedupPosts]
    split
    · next hc =>
      rw [ih]
      by_cases hu : u ∈ seen
      · rw [if_pos hu, if_pos hu]
      · have hpu : ¬(urlIs u p = true) := by
          simp only [urlIs, decide_eq_true_eq]
          intro he
          exact hu (he ▸ hc)
        rw [if_neg hu, if_neg hu, List.filter_cons_of_neg hpu]
    · next hc =>
      by_cases hpu : canonicalUrl p.permalink = u
      · have hd : urlIs u p = true := by
          simp only [urlIs, decide_eq_true_eq]
          exact hpu
        have hu : u ∉ seen := fun hmem => hc (by rw [hpu]; exact hmem)
        rw [List.filter_cons_of_pos hd, ih,
          if_pos (List.mem_cons.mpr (Or.inl hpu.symm)), if_neg hu,
          List.filter_cons_of_pos hd]
        rfl
      · have hd : ¬(urlIs u p = true) := by
          simp only [urlIs, decide_eq_true_eq]
          exact hpu
        rw [List.filter_cons_of_neg hd, ih]
        by_cases hu : u ∈ seen
        · rw [if_pos (List.mem_cons.mpr (Or.inr hu)), if_pos hu]
        · rw [if_neg (by
            intro hmem
            rcases List.mem_cons.mp hmem with h1 | h1
            · exact hpu h1.symm
            · exact hu h1), if_neg hu, List.filter_cons_of_neg hd]

/-- C6: deduplication keeps, for every canonical URL, exactly the first
record carrying it (the output filtered to any URL equals the first element
of the input filtered to that URL), preserves relative order (the output is
a sublist of the input), leaves canonical URLs pairwise distinct, and is
idempotent; the record source is never consulted. -/
theorem c6_dedup_first_seen (l : List TradePost) (u : String) :
    (dedupPosts l []).Sublist l
    ∧ ((dedupPosts l []).map (fun p => canonicalUrl p.permalink)).Nodup
    ∧ dedupPosts (dedupPosts l []) [] = dedupPosts l []
    ∧ (dedupPosts l []).filter (urlIs u) = (l.filter (urlIs u)).take 1 :=
  ⟨dedupPosts_sublist l [], dedupPosts_canon_nodup l [], dedupPosts_idem l [],
   by rw [dedupPosts_filter l [] u, if_neg (List.not_mem_nil u)]⟩

theorem rankPosts_pairwise (l : List TradePost) :
    (rankPosts l).Pairwise (fun a b => rankKey b ≤ rankKey a) := by
  have h := @List.sorted_mergeSort TradePost
    (fun a b : TradePost => decide (rankKey b ≤ rankKey a))
    (by
      intro a b c hab hbc
      simp only [decide_eq_true_eq] at hab hbc ⊢
      exact le_trans hbc hab)
    (by
      intro a b
      simp only [Bool.or_eq_true, decide_eq_true_eq]
      exact le_total _ _)
    l
  exact h.imp (fun hab => of_decide_eq_true hab)

theorem rankTrunc_pairwise (limit : Nat) (l : List TradePost) :
    (truncateLimit limit (rankPosts l)).Pairwise (fun a b => rankKey b ≤ rankKey a) := by
  rw [truncateLimit]
  split
  · exact (rankPosts_pairwise l).sublist (List.take_sublist _ _)
  · exact rankPosts_pairwise l

theorem rankTrunc_mem (limit : Nat) (l : List TradePost) :
    ∀ q ∈ truncateLimit limit (rankPosts l), q ∈ l := by
  intro q hq
  have h1 : q ∈ rankPosts l := by
    rw [truncateLimit] at hq
    split at hq
    · exact (List.take_sublist _ _).subset hq
    · exact hq
  rw [rankPosts] at h1
  exact (List.mergeSort_perm l _).subset h1

/-- C7: after ranking and truncation, for any two positions i ≤ j, a
timestamped record at j is no newer than a timestamped record at i, and a
record without a timestamp at i forces every later record to lack one too
(no-timestamp records sink to the end); the hypothesis records that real
timestamps exceed the `datetime.min` sentinel. -/
theorem c7_ranking (limit : Nat) (l : List TradePost)
    (h : ∀ p ∈ l, ∀ t, p.created_timestamp = some t → datetimeMin < t) :
    ∀ i j (hi : i < (truncateLimit limit (rankPosts l)).length)
      (hj : j < (truncateLimit limit (rankPosts l)).length), i ≤ j →
      (∀ ta tb, (truncateLimit limit (rankPosts l))[i].created_timestamp = some ta →
          (truncateLimit limit (rankPosts l))[j].created_timestamp = some tb → tb ≤ ta)
      ∧ ((truncateLimit limit (rankPosts l))[i].created_timestamp = none →
          (truncateLimit limit (rankPosts l))[j].created_timestamp = none) := by
  intro i j hi hj hij
  rcases Nat.lt_or_ge i j with hlt | hge
  · have hkey : rankKey (truncateLimit limit (rankPosts l))[j]
        ≤ rankKey (truncateLimit limit (rankPosts l))[i] :=
      (List.pairwise_iff_getElem.mp (rankTrunc_pairwise limit l)) i j hi hj hlt
    constructor
    · intro ta tb hta htb
      have e1 : rankKey ((truncateLimit limit (rankPosts l))[i]) = ta := by
        rw [rankKey, hta]
        rfl
      have e2 : rankKey ((truncateLimit limit (rankPosts l))[j]) = tb := by
        rw [rankKey, htb]
        rfl
      rw [e1, e2] at hkey
      exact hkey
    · intro hnone
      cases hcv : (truncateLimit limit (rankPosts l))[j].created_timestamp with
      | none => rfl
      | some t =>
        exfalso
        have hmem : (truncateLimit limit (rankPosts l))[j] ∈ l :=
          rankTrunc_mem limit l _ (List.getElem_mem hj)
        have hgt := h _ hmem t hcv
        have e1 : rankKey ((truncateLimit limit (rankPosts l))[i]) = datetimeMin := by
          rw [rankKey, hnone]
          rfl
        have e2 : rankKey ((truncateLimit limit (rankPosts l))[j]) = t := by
          rw [rankKey, hcv]
          rfl
        rw [e1, e2] at hkey
        exact absurd hkey (not_le.mpr hgt)
  · have hje : i = j := Nat.le_antisymm hij hge
    subst hje
    constructor
    · intro ta tb hta htb
      rw [hta] at htb
      injection htb with e
      exact le_of_eq e.symm
    · intro hn
      exact hn

/-- Witness for C5 at a concrete two-record page split by the cutoff. -/
theorem c5_date_cutoff_witness :
    ((5 : Int) < 50 ∧ (1 : Nat) < 10 ∧ (0 : Nat) < 3)
    ∧ get_posts_paginated true
        (fun _ => PageResult.ok
          ⟨[{ created_utc := some 100 }, { created_utc := some 5 }], some "cur"⟩)
        "kpopforsale" 0 10 3 (some 50)
      = ([mkTradePost "kpopforsale" 0 { created_utc := some 100 }], none, 1) :=
  ⟨⟨by decide, by decide, by decide⟩,
   (c5_date_cutoff
      (fun _ => PageResult.ok
        ⟨[{ created_utc := some 100 }, { created_utc := some 5 }], some "cur"⟩)
      "kpopforsale" 0 50 10 3 [{ created_utc := some 100 }]
      { created_utc := some 5 } [] (some "cur")).2
     rfl (by decide) (by decide) (by decide) (by decide)⟩

/-- Witness for C7 on a concrete list with one timestamped and one
timestampless record. -/
theorem c7_ranking_witness :
    (∀ p ∈ c7SampleList, ∀ t, p.created_timestamp = some t → datetimeMin < t)
    ∧ ∀ i j (hi : i < (truncateLimit 10 (rankPosts c7SampleList)).length)
        (hj : j < (truncateLimit 10 (rankPosts c7SampleList)).length), i ≤ j →
        (∀ ta tb,
            (truncateLimit 10 (rankPosts c7SampleList))[i].created_timestamp = some ta →
            (truncateLimit 10 (rankPosts c7SampleList))[j].created_timestamp = some tb →
            tb ≤ ta)
        ∧ ((truncateLimit 10 (rankPosts c7SampleList))[i].created_timestamp = none →
            (truncateLimit 10 (rankPosts c7SampleList))[j].created_timestamp = none) := by
  have hh : ∀ p ∈ c7SampleList, ∀ t, p.created_timestamp = some t → datetimeMin < t := by
    intro p hp t ht
    rcases List.mem_cons.mp hp with rfl | hp2
    · exact Option.noConfusion ht
    · rcases List.mem_singleton.mp hp2 with rfl
      have ht2 : some (5 : Int) = some t := ht
      injection ht2 with e
      rw [← e]
      decide
  exact ⟨hh, c7_ranking 10 c7SampleList hh⟩
end KpopTrade
